import Mathlib

/-!
Verification development for the `smallsh` command interpreter (src/smallsh.c).

The development shallowly embeds the parts of the program the claims are
about:

* the Linux wait-status encoding macros (`WIFEXITED`, `WIFSIGNALED`,
  `WIFSTOPPED`, `WEXITSTATUS`, `WTERMSIG`) as arithmetic on `Nat`
  (statuses returned by `waitpid` are nonnegative raw encodings);
* the foreground wait loop of `executeCommand` (lines 160-164) as a
  function over the list of statuses successively reported by `waitpid`;
* the parent branch of `executeCommand` (lines 156-169);
* the `cd` built-in `changeDirectory` (lines 178-189), the `status`
  built-in `printStatus` (lines 192-201);
* the SIGTSTP handler `handleSIGTSTP` (lines 38-52);
* `$$` expansion `expandPID` (lines 233-252) and tokenization
  `parseInput` (lines 220-230, `strtok` on single spaces);
* one cycle of the interactive loop of `main` (lines 277-335) as a step
  function `stepCycle` on an explicit shell state;
* the child branch of `executeCommand` (lines 60-151) as a function
  `childRun` producing the trace of system-level events the child
  performs (signal dispositions, `open`/`dup2`/`close`, `execvp`,
  `perror`, `exit`).

Nondeterministic outside inputs (which children have finished, the text
read from the terminal, whether `fork`/`open`/`chdir` succeed, the
statuses reported by `waitpid`) are passed in explicitly, so every
definition is executable.
-/

/-- Linux encoding of `WIFEXITED(status)`: low seven bits are zero. -/
def WIFEXITED (s : Nat) : Bool := decide (s % 128 = 0)

/-- Linux encoding of `WIFSIGNALED(status)`: the low seven bits are neither
0 (normal exit) nor 0x7f (stopped). -/
def WIFSIGNALED (s : Nat) : Bool := decide (s % 128 ≠ 0 ∧ s % 128 ≠ 127)

/-- Linux encoding of `WIFSTOPPED(status)`: low byte is 0x7f. -/
def WIFSTOPPED (s : Nat) : Bool := decide (s % 256 = 127)

/-- Linux encoding of `WEXITSTATUS(status)`: bits 8-15. -/
def WEXITSTATUS (s : Nat) : Nat := s / 256 % 256

/-- Linux encoding of `WTERMSIG(status)`: low seven bits. -/
def WTERMSIG (s : Nat) : Nat := s % 128

/-- The `status` built-in `printStatus` (smallsh.c lines 192-201): prints the
exit value when the recorded status encodes a normal exit, otherwise the
terminating signal number. -/
def printStatus (st : Nat) : String :=
  if WIFEXITED st then "exit value " ++ toString (WEXITSTATUS st) ++ "\n"
  else "terminated by signal " ++ toString (WTERMSIG st) ++ "\n"

/-- The foreground wait loop of `executeCommand` (lines 160-164):
`do { waitpid(pid, &status, WUNTRACED); } while (!WIFEXITED(status) &&
!WIFSIGNALED(status));`.  `reports` is the sequence of statuses the
successive `waitpid` calls store; the loop ends at the first report that
encodes a normal exit or a termination by signal.  `none` means the list
was exhausted without such a report, i.e. the parent is still blocked. -/
def fgWait : List Nat → Option Nat
  | [] => none
  | st :: rest => if WIFEXITED st || WIFSIGNALED st then some st else fgWait rest

/-- Observable actions of one cycle of the interpreter loop. -/
inductive Act where
  | bgDoneMsg (pid st : Nat)
  | prompt
  | readErr
  | printOut (s : String)
  | chdirTo (target : Option String)
  | cdErr
  | forkFail
  | launch (argv : List String) (isBg : Bool)
  | bgPidMsg (pid : Nat)
deriving DecidableEq

/-- The parent branch of `executeCommand` (lines 156-169): a background
launch prints the child pid and leaves `last_status` unchanged; a
foreground launch blocks in the `fgWait` loop and the result becomes the
new `last_status`.  `none` models the parent blocked forever in the wait
loop. -/
def executeCommandParent (isBg : Bool) (childPid : Nat) (reports : List Nat)
    (last : Nat) : Option (Nat × List Act) :=
  if isBg then some (last, [Act.bgPidMsg childPid])
  else
    match fgWait reports with
    | none => none
    | some st => some (st, [])

/-- The `cd` built-in `changeDirectory` (lines 178-189).  `chdirOk` says
whether a `chdir` to the given target would succeed (`none` is
`chdir(NULL)`, as happens when `getenv("HOME")` returns `NULL`).  With no
argument or `~` the code calls `chdir(getenv("HOME"))` and ignores the
result; with an explicit path a failed `chdir` is reported with
`perror("cd")`. -/
def changeDirectory (home : Option String) (chdirOk : Option String → Bool)
    (path : Option String) : List Act :=
  if path = none ∨ path = some "~" then [Act.chdirTo home]
  else [Act.chdirTo path] ++ (if chdirOk path then [] else [Act.cdErr])

/-- A single `write(STDOUT_FILENO, text, len)` call. -/
structure WriteCall where
  text : String
  len : Nat
deriving DecidableEq

/-- The banner written when entering foreground-only mode (line 45). -/
def enteringMsg : String := "\nEntering foreground-only mode (& is now ignored)\n"

/-- The banner written when exiting foreground-only mode (line 49). -/
def exitingMsg : String := "\nExiting foreground-only mode\n"

/-- The SIGTSTP handler `handleSIGTSTP` (lines 38-52): toggles the static
`is_foreground_only` flag and performs exactly one unbuffered `write` of
the matching banner (length argument 50 resp. 30, as in the source). -/
def handleSIGTSTP (mode : Bool) : Bool × List WriteCall :=
  let m2 := !mode
  if m2 then (m2, [⟨enteringMsg, 50⟩]) else (m2, [⟨exitingMsg, 30⟩])

/-- Process-wide state of the interpreter: `last_status` (line 28, the raw
wait status of the last foreground command), the SIGTSTP handler's static
`is_foreground_only` flag (line 40), and the interpreter's pid. -/
structure ShState where
  last_status : Nat
  fgOnly : Bool
  pid : Nat
deriving DecidableEq

/-- Initial interpreter state: `int last_status = 0;` (line 28) and
`static int is_foreground_only = 0;` (line 40). -/
def initState (pid : Nat) : ShState := ⟨0, false, pid⟩

/-- Delivery of SIGTSTP to the interpreter: runs `handleSIGTSTP` on the
static flag. -/
def deliverSIGTSTP (σ : ShState) : ShState × List WriteCall :=
  let r := handleSIGTSTP σ.fgOnly
  (⟨σ.last_status, r.1, σ.pid⟩, r.2)

/-- Splits a character list at the first occurrence of the two-character
pattern `$$` (the `strstr(input, "$$")` call of `expandPID`, line 244):
`some (p, q)` when the list is `p ++ '$' :: '$' :: q` with the shown
occurrence the leftmost one, `none` when there is no occurrence. -/
def splitFirstAux : List Char → Option (List Char × List Char)
  | [] => none
  | [_] => none
  | c :: d :: rest =>
    if c = '$' ∧ d = '$' then some ([], rest)
    else
      match splitFirstAux (d :: rest) with
      | none => none
      | some pq => some (c :: pq.1, pq.2)

/-- The `while ((found = strstr(input, "$$")) != NULL)` loop of `expandPID`
(lines 244-251): each iteration replaces the leftmost `$$` by the pid
string and restarts the search from the beginning.  The fuel argument
bounds the number of iterations; since every iteration removes two `$`
characters and the pid string (decimal digits) adds none, fuel equal to
the input length is never exhausted. -/
def expandLoop (ps : List Char) : Nat → List Char → List Char
  | 0, l => l
  | n + 1, l =>
    match splitFirstAux l with
    | none => l
    | some pq => expandLoop ps n (pq.1 ++ ps ++ pq.2)

/-- `expandPID` (lines 233-252): replaces every `$$` in the input with the
decimal pid string (`sprintf(pid_str, "%d", getpid())`). -/
def expandPID (pidStr : String) (input : String) : String :=
  String.mk (expandLoop pidStr.data input.data.length input.data)

/-- Modelled from the spec's words for the refinement claim C7: a single
greedy left-to-right pass replacing every occurrence of `$$` by the pid
string ("every occurrence of the two-character sequence `$$` anywhere in
the line is replaced with the decimal interpreter process id"). -/
def specExpand (ps : List Char) : List Char → List Char
  | [] => []
  | [c] => [c]
  | c :: d :: rest =>
    if c = '$' ∧ d = '$' then ps ++ specExpand ps rest
    else c :: specExpand ps (d :: rest)

/-- Whether a character list contains two adjacent `$` characters. -/
def hasDD : List Char → Bool
  | c :: d :: rest => decide (c = '$' ∧ d = '$') || hasDD (d :: rest)
  | _ => false

/-- Accumulator-style tokenizer: `strtok(input, " ")` splits on single
spaces and never yields empty tokens. -/
def parseAux : List Char → List Char → List String
  | [], acc => if acc = [] then [] else [String.mk acc.reverse]
  | c :: rest, acc =>
    if c = ' ' then
      if acc = [] then parseAux rest [] else String.mk acc.reverse :: parseAux rest []
    else parseAux rest (c :: acc)

/-- `parseInput` (lines 220-230): tokenizes the line on spaces via
`strtok`. -/
def parseInput (s : String) : List String := parseAux s.data []

/-- Everything the main loop consumes during one cycle that comes from
outside the process: the `(pid, status)` pairs successively returned by
the reaper's `waitpid(-1, &status, WNOHANG)` loop, the line read by
`fgets` (`none` = `NULL`), whether `fork` succeeds and the child pid it
returns, the statuses reported by a foreground `waitpid` loop, and the
outcome of `chdir` calls plus the value of `getenv("HOME")`. -/
structure CycleIn where
  reaped : List (Nat × Nat)
  line : Option String
  forkOk : Bool
  childPid : Nat
  fgReports : List Nat
  chdirOk : Option String → Bool
  home : Option String

/-- Result of one cycle of the interpreter loop: the next state, or
shell termination (the `exit` built-in), or the parent blocked forever in
the foreground wait, or undefined behaviour (the source dereferences
`args[0] == NULL` in `executeBuiltInCommand` when the line parses to no
tokens). -/
inductive StepRes where
  | next (σ : ShState) (acts : List Act)
  | terminated (code : Nat) (acts : List Act)
  | blocked (acts : List Act)
  | undef
deriving DecidableEq

/-- One cycle of the interactive loop of `main` (lines 277-335): reap
finished background children (never touching `last_status`), print the
prompt, read a line, strip at the first newline (`strcspn`), skip blank
and `#` lines, expand `$$`, tokenize, strip a trailing `&` into the
background flag, dispatch built-ins, and otherwise fork and run
`executeCommand`.  The background flag is computed solely from the
trailing `&` (line 322); the SIGTSTP handler's foreground-only flag is
never consulted here, exactly as in the source. -/
def stepCycle (σ : ShState) (inp : CycleIn) : StepRes :=
  let base := inp.reaped.map (fun pr => Act.bgDoneMsg pr.1 pr.2) ++ [Act.prompt]
  match inp.line with
  | none => StepRes.next σ (base ++ [Act.readErr])
  | some raw =>
    let line := raw.data.takeWhile (fun c => decide (c ≠ '\n'))
    if line = [] ∨ line.head? = some '#' then StepRes.next σ base
    else
      let args := parseInput (expandPID (toString σ.pid) (String.mk line))
      let isBg : Bool := decide (args.getLast? = some "&")
      let args2 := if args.getLast? = some "&" then args.dropLast else args
      match args2 with
      | [] => StepRes.undef
      | a0 :: rest =>
        if a0 = "exit" then StepRes.terminated 0 base
        else if a0 = "cd" then
          StepRes.next σ (base ++ changeDirectory inp.home inp.chdirOk rest.head?)
        else if a0 = "status" then
          StepRes.next σ (base ++ [Act.printOut (printStatus σ.last_status)])
        else if inp.forkOk then
          match executeCommandParent isBg inp.childPid inp.fgReports σ.last_status with
          | none => StepRes.blocked (base ++ [Act.launch (a0 :: rest) isBg])
          | some pr =>
            StepRes.next ⟨pr.1, σ.fgOnly, σ.pid⟩
              (base ++ [Act.launch (a0 :: rest) isBg] ++ pr.2)
        else StepRes.next σ (base ++ [Act.forkFail])

/-- The flag bits an `open` call passes (`O_RDONLY` / `O_WRONLY` /
`O_CREAT` / `O_TRUNC`). -/
structure OFlags where
  rd : Bool
  wr : Bool
  creat : Bool
  trunc : Bool
deriving DecidableEq

/-- `O_RDONLY`, used for `<` redirection (line 79). -/
def inFlags : OFlags := ⟨true, false, false, false⟩

/-- `O_WRONLY | O_CREAT | O_TRUNC`, used for `>` redirection (line 96). -/
def outFlags : OFlags := ⟨false, true, true, true⟩

/-- `O_WRONLY`, used for the `/dev/null` output default (line 133). -/
def wrFlags : OFlags := ⟨false, true, false, false⟩

/-- A signal disposition passed to `signal()`. -/
inductive SigDisp where
  | dfl
  | ign
deriving DecidableEq

/-- System-level events performed by the child branch of
`executeCommand`.  `openEv fd path flags mode` is a successful
`open(path, flags, mode)` returning descriptor `fd` (descriptor numbers
are abstract fresh identifiers); `openFailEv` is a failed `open`;
`openNullEv` is the `open(NULL, ...)` call made when a redirection
operator is the last token (it fails with `EFAULT`). -/
inductive CEv where
  | sigSet (sig : Nat) (disp : SigDisp)
  | openEv (fd : Nat) (path : String) (flags : OFlags) (mode : Nat)
  | openFailEv (path : String) (flags : OFlags)
  | openNullEv
  | dup2Ev (oldFd newFd : Nat)
  | closeEv (fd : Nat)
  | perrorEv
  | exitEv (code : Nat)
  | execEv (prog : String) (argv : List String)
deriving DecidableEq

/-- Result of the redirection scan loop (lines 75-111): the events it
performs, whether it called `exit` (a failed `open`), whether an input
resp. output redirection succeeded (`in_redir != -1` / `out_redir != -1`),
and the next fresh descriptor number. -/
structure ScanOut where
  evs : List CEv
  exited : Bool
  sawIn : Bool
  sawOut : Bool
  nextFd : Nat
deriving DecidableEq

/-- The redirection loop of the child (lines 75-111), one step per token.
`ok path flags` says whether `open(path, flags, ...)` succeeds.  As in
the source, the loop nulls the operator slot but keeps walking from the
path token (the index only advances by one), so a path token that itself
looks like an operator is processed as one on the next step. -/
def redirScan (ok : String → OFlags → Bool) : List String → Nat → ScanOut
  | [], fd => ⟨[], false, false, false, fd⟩
  | t :: rest, fd =>
    if t = "<" then
      match rest with
      | [] => ⟨[CEv.openNullEv, CEv.perrorEv, CEv.exitEv 1], true, false, false, fd⟩
      | p :: _ =>
        if ok p inFlags then
          let r := redirScan ok rest (fd + 1)
          ⟨CEv.openEv fd p inFlags 0 :: CEv.dup2Ev fd 0 :: CEv.closeEv fd :: r.evs,
            r.exited, true, r.sawOut, r.nextFd⟩
        else ⟨[CEv.openFailEv p inFlags, CEv.perrorEv, CEv.exitEv 1], true, false, false, fd⟩
    else if t = ">" then
      match rest with
      | [] => ⟨[CEv.openNullEv, CEv.perrorEv, CEv.exitEv 1], true, false, false, fd⟩
      | p :: _ =>
        if ok p outFlags then
          let r := redirScan ok rest (fd + 1)
          ⟨CEv.openEv fd p outFlags 0o644 :: CEv.dup2Ev fd 1 :: CEv.closeEv fd :: r.evs,
            r.exited, r.sawIn, true, r.nextFd⟩
        else ⟨[CEv.openFailEv p outFlags, CEv.perrorEv, CEv.exitEv 1], true, false, false, fd⟩
    else
      let r := redirScan ok rest fd
      ⟨r.evs, r.exited, r.sawIn, r.sawOut, r.nextFd⟩

/-- The `/dev/null` output default for background children (lines
132-144): applied only when no explicit `>` redirection succeeded. -/
def bgDefaultOut (ok : String → OFlags → Bool) (sawOut : Bool) (fd : Nat) :
    List CEv × Bool :=
  if sawOut then ([], false)
  else if ok "/dev/null" wrFlags then
    ([CEv.openEv fd "/dev/null" wrFlags 0, CEv.dup2Ev fd 1, CEv.closeEv fd], false)
  else ([CEv.openFailEv "/dev/null" wrFlags, CEv.perrorEv, CEv.exitEv 1], true)

/-- The `/dev/null` defaults for background children (lines 114-145):
input first (lines 117-129), then output; a failed `open` of `/dev/null`
exits the child before the output default is attempted. -/
def bgDefaults (ok : String → OFlags → Bool) (sawIn sawOut : Bool) (fd : Nat) :
    List CEv × Bool :=
  if sawIn then bgDefaultOut ok sawOut fd
  else if ok "/dev/null" inFlags then
    let rest := bgDefaultOut ok sawOut (fd + 1)
    (CEv.openEv fd "/dev/null" inFlags 0 :: CEv.dup2Ev fd 0 :: CEv.closeEv fd :: rest.1,
      rest.2)
  else ([CEv.openFailEv "/dev/null" inFlags, CEv.perrorEv, CEv.exitEv 1], true)

/-- Tokens that survive into the argument vector: everything before the
first redirection operator, since the scan loop writes `NULL` into each
operator slot and `execvp` reads the array only up to its first `NULL`. -/
def notRedirOp (t : String) : Bool := decide (t ≠ "<" ∧ t ≠ ">")

/-- The `execvp(args[0], args)` step (lines 148-151).  An empty argument
vector means `args[0]` was nulled by the scan, so `execvp(NULL, ...)`
fails; any failure is reported and the child exits with
`EXIT_FAILURE`. -/
def execStep (execOk : Bool) (argv : List String) : List CEv :=
  match argv with
  | [] => [CEv.perrorEv, CEv.exitEv 1]
  | p :: _ => CEv.execEv p argv :: (if execOk then [] else [CEv.perrorEv, CEv.exitEv 1])

/-- The signal dispositions installed by the child (lines 64-72):
background children ignore SIGINT (2) and SIGTSTP (20); foreground
children restore SIGINT to default and ignore SIGTSTP. -/
def sigEvents (isBg : Bool) : List CEv :=
  if isBg then [CEv.sigSet 2 SigDisp.ign, CEv.sigSet 20 SigDisp.ign]
  else [CEv.sigSet 2 SigDisp.dfl, CEv.sigSet 20 SigDisp.ign]

/-- The child branch of `executeCommand` (lines 60-151): signal
dispositions by role (lines 64-72), the redirection scan, the background
`/dev/null` defaults, then program-image replacement on the argument
vector truncated at the first redirection operator. -/
def childRun (ok : String → OFlags → Bool) (execOk : Bool) (isBg : Bool)
    (args : List String) : List CEv :=
  let r := redirScan ok args 3
  if r.exited then sigEvents isBg ++ r.evs
  else
    let d := if isBg then bgDefaults ok r.sawIn r.sawOut r.nextFd else ([], false)
    if d.2 then sigEvents isBg ++ r.evs ++ d.1
    else sigEvents isBg ++ r.evs ++ d.1 ++ execStep execOk (args.takeWhile notRedirOp)

/-- An `open` oracle under which every `open` succeeds. -/
def allOkO : String → OFlags → Bool := fun _ _ => true

/-- An `open` oracle under which every `open` fails. -/
def noOkO : String → OFlags → Bool := fun _ _ => false

/-- A `chdir` oracle under which every `chdir` succeeds. -/
def trueChdir : Option String → Bool := fun _ => true

/-- A `chdir` oracle under which every `chdir` fails. -/
def falseChdir : Option String → Bool := fun _ => false

/-- A cycle input whose line is the `status` built-in, with no finished
background children. -/
def statusCycleIn : CycleIn := ⟨[], some "status", true, 0, [], trueChdir, none⟩

/-- A cycle input whose line is a comment. -/
def commentCycleIn : CycleIn := ⟨[], some "# a comment", true, 0, [], trueChdir, none⟩

/-- A cycle input requesting a background `sleep 5 &`. -/
def bgCycleIn : CycleIn := ⟨[], some "sleep 5 &", true, 77, [], trueChdir, none⟩

/-- A raw status that encodes a normal exit or a termination by signal
(the condition under which the foreground wait loop stops and stores). -/
def statusOK (s : Nat) : Prop := WIFEXITED s = true ∨ WIFSIGNALED s = true

lemma stopped_not_exited_signaled (t : Nat) (h : WIFSTOPPED t = true) :
    WIFEXITED t = false ∧ WIFSIGNALED t = false := by
  unfold WIFSTOPPED at h
  have h127 : t % 256 = 127 := by simpa using h
  have h128 : t % 128 = 127 := by
    have hd : (128 : Nat) ∣ 256 := by norm_num
    calc t % 128 = t % 256 % 128 := (Nat.mod_mod_of_dvd t hd).symm
      _ = 127 := by rw [h127]
  unfold WIFEXITED WIFSIGNALED
  simp [h128]

lemma fgWait_some_cond (l : List Nat) (st : Nat) (h : fgWait l = some st) :
    WIFEXITED st = true ∨ WIFSIGNALED st = true := by
  induction l with
  | nil => simp [fgWait] at h
  | cons t ts ih =>
    unfold fgWait at h
    by_cases hc : (WIFEXITED t || WIFSIGNALED t) = true
    · rw [if_pos hc] at h
      obtain rfl : t = st := by injection h
      simpa using hc
    · rw [if_neg hc] at h
      exact ih h

lemma expandLoop_none (ps : List Char) (l : List Char)
    (h : splitFirstAux l = none) : ∀ n, expandLoop ps n l = l := by
  intro n
  cases n with
  | zero => rfl
  | succ n => simp [expandLoop, h]

lemma expandPID_no_dd (ps s : String) (h : splitFirstAux s.data = none) :
    expandPID ps s = s := by
  unfold expandPID
  rw [expandLoop_none ps.data s.data h]

/-- A `status` line on any state prints the recorded `last_status` via
`printStatus` and changes nothing. -/
lemma status_cycle (σ : ShState) :
    stepCycle σ statusCycleIn =
      StepRes.next σ [Act.prompt, Act.printOut (printStatus σ.last_status)] := rfl

/-- Case analysis of one loop cycle: the only way `last_status` changes is
a foreground external launch, whose wait outcome is the new value. -/
lemma stepCycle_next_last (σ : ShState) (inp : CycleIn) (σ2 : ShState)
    (acts : List Act) (h : stepCycle σ inp = StepRes.next σ2 acts) :
    σ2.last_status = σ.last_status ∨
      ∃ a st, Act.launch a false ∈ acts ∧ fgWait inp.fgReports = some st ∧
        σ2.last_status = st := by
  simp only [stepCycle] at h
  split at h
  · cases h; exact Or.inl rfl
  · split at h
    · cases h; exact Or.inl rfl
    · split at h
      · exact StepRes.noConfusion h
      · rename_i a0 rest hargs
        split at h
        · exact StepRes.noConfusion h
        · split at h
          · cases h; exact Or.inl rfl
          · split at h
            · cases h; exact Or.inl rfl
            · split at h
              · split at h
                · exact StepRes.noConfusion h
                · rename_i pr heq
                  cases h
                  unfold executeCommandParent at heq
                  split at heq
                  · rename_i hbg
                    cases heq
                    exact Or.inl rfl
                  · rename_i hbg
                    split at heq
                    · exact Option.noConfusion heq
                    · rename_i st hfg
                      cases heq
                      rw [Bool.not_eq_true] at hbg
                      rw [hbg]
                      exact Or.inr ⟨a0 :: rest, st, by simp, hfg, rfl⟩
              · cases h; exact Or.inl rfl

lemma fgWait_skip_stopped (pre l : List Nat)
    (h1 : ∀ t ∈ pre, WIFSTOPPED t = true) :
    fgWait (pre ++ l) = fgWait l := by
  induction pre with
  | nil => rfl
  | cons t ts ih =>
    have hst := stopped_not_exited_signaled t (h1 t (by simp))
    have h1b : ∀ x ∈ ts, WIFSTOPPED x = true := fun x hx => h1 x (by simp [hx])
    show fgWait (t :: (ts ++ l)) = fgWait l
    rw [← ih h1b]
    rw [show fgWait (t :: (ts ++ l)) =
        if WIFEXITED t || WIFSIGNALED t then some t else fgWait (ts ++ l) from rfl]
    rw [hst.1, hst.2]
    simp

/-- Claim C1: a foreground launch blocks in the wait loop through any
number of intermediate stopped reports, ends at the first report that
encodes a normal exit or a termination by signal, stores that raw
encoding as the new `last_status`, and a `status` built-in issued on the
resulting state prints exactly that outcome via `printStatus`. -/
theorem c1_foreground_wait_records_status (pre : List Nat) (st childPid last : Nat)
    (h1 : ∀ t ∈ pre, WIFSTOPPED t = true)
    (h2 : WIFEXITED st = true ∨ WIFSIGNALED st = true) :
    fgWait (pre ++ [st]) = some st
    ∧ executeCommandParent false childPid (pre ++ [st]) last = some (st, [])
    ∧ ∀ σ : ShState, σ.last_status = st →
        stepCycle σ statusCycleIn =
          StepRes.next σ [Act.prompt, Act.printOut (printStatus st)] := by
  have hcond : (WIFEXITED st || WIFSIGNALED st) = true := by
    rcases h2 with h | h <;> simp [h]
  have hw : fgWait (pre ++ [st]) = some st := by
    rw [fgWait_skip_stopped pre [st] h1]
    simp [fgWait, hcond]
  refine ⟨hw, ?_, ?_⟩
  · simp [executeCommandParent, hw]
  · intro σ hσ
    rw [← hσ]
    exact status_cycle σ

/-- Witness for C1: one stopped report (5247 encodes stopped by SIGTSTP)
followed by status 256 (exit value 1). -/
theorem c1_witness :
    fgWait [5247, 256] = some 256
    ∧ executeCommandParent false 7 [5247, 256] 9 = some (256, [])
    ∧ stepCycle ⟨256, false, 4⟩ statusCycleIn =
        StepRes.next ⟨256, false, 4⟩ [Act.prompt, Act.printOut (printStatus 256)] := by
  have h := c1_foreground_wait_records_status [5247] 256 7 9 (by decide) (Or.inl (by decide))
  exact ⟨h.1, h.2.1, h.2.2 ⟨256, false, 4⟩ rfl⟩

/-- Claim C2 (the code violates the claim): after one SIGTSTP delivery the
foreground-only flag is set, yet the launch path never reads it — the
line `sleep 5 &` is still classified as a background request and launched
in the background (`Act.launch ["sleep", "5"] true` followed by the
background-pid message), not demoted to foreground. -/
theorem c2_background_not_demoted :
    (deliverSIGTSTP (initState 1234)).1.fgOnly = true
    ∧ stepCycle (deliverSIGTSTP (initState 1234)).1 bgCycleIn =
        StepRes.next ⟨0, true, 1234⟩
          [Act.prompt, Act.launch ["sleep", "5"] true, Act.bgPidMsg 77] :=
  ⟨rfl, rfl⟩

/-- Claim C5: `last_status` starts as the encoding of "exited 0", and
across any cycle of the interpreter loop it changes only when the cycle
performs a foreground external launch, in which case the new value is the
outcome of that foreground wait; reaping of background completions (the
`reaped` inputs) never touches it. -/
theorem c5_last_status_only_foreground (pid : Nat) :
    (WIFEXITED (initState pid).last_status = true
      ∧ WEXITSTATUS (initState pid).last_status = 0)
    ∧ ∀ σ inp σ2 acts, stepCycle σ inp = StepRes.next σ2 acts →
        σ2.last_status = σ.last_status ∨
          ∃ a st, Act.launch a false ∈ acts ∧ fgWait inp.fgReports = some st ∧
            σ2.last_status = st :=
  ⟨⟨rfl, by simp [initState, WEXITSTATUS]⟩,
    fun σ inp σ2 acts h => stepCycle_next_last σ inp σ2 acts h⟩

/-- Witness for C5: a comment-line cycle leaves `last_status` unchanged. -/
theorem c5_witness :
    (initState 3).last_status = (initState 3).last_status ∨
      ∃ a st, Act.launch a false ∈ [Act.prompt] ∧
        fgWait commentCycleIn.fgReports = some st ∧ (initState 3).last_status = st :=
  (c5_last_status_only_foreground 3).2 (initState 3) commentCycleIn (initState 3)
    [Act.prompt] rfl

/-- Claim C6: each SIGTSTP delivery toggles the mode flag (two deliveries
restore it), and performs exactly one `write` call whose text is one of
the two defined banners and whose length argument is exactly the banner's
length. -/
theorem c6_sigtstp_toggle (m : Bool) :
    (handleSIGTSTP (handleSIGTSTP m).1).1 = m
    ∧ (handleSIGTSTP m).2.length = 1
    ∧ ∀ w ∈ (handleSIGTSTP m).2,
        (w.text = enteringMsg ∨ w.text = exitingMsg) ∧ w.len = w.text.length := by
  cases m <;> exact ⟨rfl, rfl, by decide⟩

/-- Witness for C6 at mode = false: the first delivery writes the entering
banner with length 50. -/
theorem c6_witness :
    ((⟨enteringMsg, 50⟩ : WriteCall).text = enteringMsg
        ∨ (⟨enteringMsg, 50⟩ : WriteCall).text = exitingMsg)
    ∧ (⟨enteringMsg, 50⟩ : WriteCall).len = (⟨enteringMsg, 50⟩ : WriteCall).text.length :=
  (c6_sigtstp_toggle false).2.2 ⟨enteringMsg, 50⟩ (by decide)

/-- Claim C8: a cycle whose line is empty (after newline stripping) or
starts with `#` produces exactly the reap messages and the prompt — the
state (so `last_status`) is unchanged and no launch or built-in dispatch
occurs. -/
theorem c8_blank_comment_noop (σ : ShState) (inp : CycleIn) (raw : String)
    (hl : inp.line = some raw)
    (hc : raw.data.takeWhile (fun c => decide (c ≠ '\n')) = []
        ∨ (raw.data.takeWhile (fun c => decide (c ≠ '\n'))).head? = some '#') :
    stepCycle σ inp =
      StepRes.next σ (inp.reaped.map (fun pr => Act.bgDoneMsg pr.1 pr.2) ++ [Act.prompt])
    ∧ ∀ l b, Act.launch l b ∉
        inp.reaped.map (fun pr => Act.bgDoneMsg pr.1 pr.2) ++ [Act.prompt] := by
  constructor
  · simp only [stepCycle, hl]
    rw [if_pos hc]
  · intro l b
    simp

/-- Witness for C8: a `# comment` line. -/
theorem c8_witness :
    stepCycle (initState 3) commentCycleIn =
      StepRes.next (initState 3)
        (commentCycleIn.reaped.map (fun pr => Act.bgDoneMsg pr.1 pr.2) ++ [Act.prompt]) :=
  (c8_blank_comment_noop (initState 3) commentCycleIn "# a comment" rfl (by decide)).1

/-- Claim C9: every reachable `last_status` encodes a normal exit or a
termination by signal (never a stopped state): the property holds
initially, is preserved by every loop cycle, excludes `WIFSTOPPED`, and
makes the else-branch of `printStatus` a genuine signal termination. -/
theorem c9_status_never_stopped (pid : Nat) :
    statusOK (initState pid).last_status
    ∧ (∀ σ inp σ2 acts, stepCycle σ inp = StepRes.next σ2 acts →
        statusOK σ.last_status → statusOK σ2.last_status)
    ∧ (∀ s, statusOK s → WIFSTOPPED s = false)
    ∧ (∀ s, statusOK s → WIFEXITED s = false →
        WIFSIGNALED s = true
          ∧ printStatus s = "terminated by signal " ++ toString (WTERMSIG s) ++ "\n") := by
  refine ⟨Or.inl rfl, ?_, ?_, ?_⟩
  · intro σ inp σ2 acts h hok
    rcases stepCycle_next_last σ inp σ2 acts h with heq | ⟨a, st, _, hfg, hlast⟩
    · rw [heq]; exact hok
    · rw [hlast]; exact fgWait_some_cond inp.fgReports st hfg
  · intro s hs
    cases hb : WIFSTOPPED s with
    | false => rfl
    | true =>
      have h2 := stopped_not_exited_signaled s hb
      rcases hs with h1 | h1
      · rw [h2.1] at h1; cases h1
      · rw [h2.2] at h1; cases h1
  · intro s hs hne
    have hsig : WIFSIGNALED s = true := by
      rcases hs with h1 | h1
      · rw [h1] at hne; cases hne
      · exact h1
    exact ⟨hsig, by simp [printStatus, hne]⟩

/-- Witness for C9: status 9 (killed by signal 9) is reported through the
else branch as a genuine signal termination. -/
theorem c9_witness :
    WIFSIGNALED 9 = true
    ∧ printStatus 9 = "terminated by signal " ++ toString (WTERMSIG 9) ++ "\n" :=
  (c9_status_never_stopped 0).2.2.2 9 (Or.inr (by decide)) (by decide)

/-- Claim C10: `cd` with no argument or `~` attempts the change to the
home target without checking the result — no error act is produced for
any `chdir` outcome — while an explicit path reports `cdErr` exactly when
the `chdir` fails. -/
theorem c10_cd_home_unchecked (home : Option String) (ok : Option String → Bool) :
    (changeDirectory home ok none = [Act.chdirTo home]
      ∧ changeDirectory home ok (some "~") = [Act.chdirTo home])
    ∧ (∀ p, p ≠ "~" → ok (some p) = false →
        Act.cdErr ∈ changeDirectory home ok (some p))
    ∧ Act.cdErr ∉ changeDirectory home ok none
    ∧ Act.cdErr ∉ changeDirectory home ok (some "~") := by
  refine ⟨⟨rfl, ?_⟩, ?_, ?_, ?_⟩
  · unfold changeDirectory
    rw [if_pos (Or.inr rfl)]
  · intro p hne hok
    unfold changeDirectory
    rw [if_neg (by simp [hne])]
    simp [hok]
  · simp [changeDirectory]
  · unfold changeDirectory
    rw [if_pos (Or.inr rfl)]
    simp

/-- Witness for C10: a failing `chdir` oracle — explicit path reports, the
home branch stays silent. -/
theorem c10_witness :
    Act.cdErr ∈ changeDirectory none falseChdir (some "/nope")
    ∧ Act.cdErr ∉ changeDirectory none falseChdir none :=
  ⟨(c10_cd_home_unchecked none falseChdir).2.1 "/nope" (by decide) rfl,
    (c10_cd_home_unchecked none falseChdir).2.2.1⟩

lemma splitFirstAux_eq (l p q : List Char) (h : splitFirstAux l = some (p, q)) :
    l = p ++ '$' :: '$' :: q := by
  induction l generalizing p q with
  | nil => simp [splitFirstAux] at h
  | cons c t ih =>
    cases t with
    | nil => simp [splitFirstAux] at h
    | cons d rest =>
      simp only [splitFirstAux] at h
      by_cases hdd : c = '$' ∧ d = '$'
      · rw [if_pos hdd] at h
        cases h
        simp [hdd.1, hdd.2]
      · rw [if_neg hdd] at h
        cases hsplit : splitFirstAux (d :: rest) with
        | none => rw [hsplit] at h; cases h
        | some pq =>
          rw [hsplit] at h
          cases h
          have hdr := ih pq.1 pq.2 hsplit
          rw [show ((c :: pq.1) ++ '$' :: '$' :: pq.2 : List Char)
              = c :: (pq.1 ++ '$' :: '$' :: pq.2) from rfl, ← hdr]

lemma specExpand_of_split_none (ps l : List Char) (h : splitFirstAux l = none) :
    specExpand ps l = l := by
  induction l with
  | nil => rfl
  | cons c t ih =>
    cases t with
    | nil => rfl
    | cons d rest =>
      simp only [splitFirstAux] at h
      by_cases hdd : c = '$' ∧ d = '$'
      · rw [if_pos hdd] at h; cases h
      · rw [if_neg hdd] at h
        simp only [specExpand]
        rw [if_neg hdd]
        have hrec : splitFirstAux (d :: rest) = none := by
          cases hsplit : splitFirstAux (d :: rest) with
          | none => rfl
          | some pq => rw [hsplit] at h; cases h
        rw [ih hrec]

lemma specExpand_of_split_some (ps l p q : List Char)
    (h : splitFirstAux l = some (p, q)) :
    specExpand ps l = p ++ ps ++ specExpand ps q := by
  induction l generalizing p q with
  | nil => simp [splitFirstAux] at h
  | cons c t ih =>
    cases t with
    | nil => simp [splitFirstAux] at h
    | cons d rest =>
      simp only [splitFirstAux] at h
      by_cases hdd : c = '$' ∧ d = '$'
      · rw [if_pos hdd] at h
        cases h
        simp only [specExpand]
        rw [if_pos hdd]
        simp
      · rw [if_neg hdd] at h
        cases hsplit : splitFirstAux (d :: rest) with
        | none => rw [hsplit] at h; cases h
        | some pq =>
          rw [hsplit] at h
          cases h
          simp only [specExpand]
          rw [if_neg hdd, ih pq.1 pq.2 hsplit]
          simp

lemma splitFirstAux_clean (l p q : List Char) (h : splitFirstAux l = some (p, q)) :
    hasDD p = false ∧ p.getLast? ≠ some '$' := by
  induction l generalizing p q with
  | nil => simp [splitFirstAux] at h
  | cons c t ih =>
    cases t with
    | nil => simp [splitFirstAux] at h
    | cons d rest =>
      simp only [splitFirstAux] at h
      by_cases hdd : c = '$' ∧ d = '$'
      · rw [if_pos hdd] at h
        cases h
        exact ⟨rfl, by simp⟩
      · rw [if_neg hdd] at h
        cases hsplit : splitFirstAux (d :: rest) with
        | none => rw [hsplit] at h; cases h
        | some pq =>
          rw [hsplit] at h
          cases h
          have hih := ih pq.1 pq.2 hsplit
          have hdr := splitFirstAux_eq (d :: rest) pq.1 pq.2 hsplit
          cases hp1 : pq.1 with
          | nil =>
            rw [hp1] at hdr
            have hd : d = '$' := by injection hdr
            have hc : c ≠ '$' := fun hc => hdd ⟨hc, hd⟩
            exact ⟨rfl, by simp [hc]⟩
          | cons u us =>
            rw [hp1] at hdr hih
            have hu : u = d := by
              injection hdr with hh1 hh2
              exact hh1.symm
            have h1 : ¬(c = '$' ∧ u = '$') := by rw [hu]; exact hdd
            constructor
            · show (decide (c = '$' ∧ u = '$') || hasDD (u :: us)) = false
              simp [hih.1, h1]
            · rw [List.getLast?_cons_cons]
              exact hih.2

lemma specExpand_append_clean (ps a x : List Char)
    (ha : hasDD a = false) (hl : a.getLast? ≠ some '$') :
    specExpand ps (a ++ x) = a ++ specExpand ps x := by
  induction a with
  | nil => rfl
  | cons c t ih =>
    cases t with
    | nil =>
      have hc : c ≠ '$' := by simpa using hl
      cases x with
      | nil => simp [specExpand]
      | cons e xs =>
        show specExpand ps (c :: e :: xs) = [c] ++ specExpand ps (e :: xs)
        simp only [specExpand]
        rw [if_neg (fun hp => hc hp.1)]
        rfl
    | cons d ts =>
      have h1 : ¬(c = '$' ∧ d = '$') := by
        intro hp
        rw [show hasDD (c :: d :: ts)
            = (decide (c = '$' ∧ d = '$') || hasDD (d :: ts)) from rfl] at ha
        simp [hp.1, hp.2] at ha
      have h2 : hasDD (d :: ts) = false := by
        rw [show hasDD (c :: d :: ts)
            = (decide (c = '$' ∧ d = '$') || hasDD (d :: ts)) from rfl] at ha
        exact (Bool.or_eq_false_iff.mp ha).2
      have h3 : (d :: ts).getLast? ≠ some '$' := by
        rw [List.getLast?_cons_cons] at hl
        exact hl
      show specExpand ps (c :: d :: (ts ++ x)) = (c :: d :: ts) ++ specExpand ps x
      simp only [specExpand]
      rw [if_neg h1]
      exact congrArg (List.cons c) (ih h2 h3)

lemma hasDD_no_dollar (ps : List Char) (h : '$' ∉ ps) : hasDD ps = false := by
  induction ps with
  | nil => rfl
  | cons c t ih =>
    cases t with
    | nil => rfl
    | cons d ts =>
      have hc : c ≠ '$' := by intro hh; exact h (by simp [hh])
      have ht : '$' ∉ d :: ts := fun hh => h (List.mem_cons_of_mem c hh)
      show (decide (c = '$' ∧ d = '$') || hasDD (d :: ts)) = false
      rw [ih ht]
      simp [hc]

lemma getLast_no_dollar (ps : List Char) (h : '$' ∉ ps) : ps.getLast? ≠ some '$' := by
  induction ps with
  | nil => simp
  | cons c t ih =>
    cases t with
    | nil =>
      have hc : c ≠ '$' := by intro hh; exact h (by simp [hh])
      simp [hc]
    | cons d ts =>
      rw [List.getLast?_cons_cons]
      exact ih (fun hh => h (List.mem_cons_of_mem c hh))

lemma count_split (l p q : List Char) (h : splitFirstAux l = some (p, q)) :
    l.count '$' = p.count '$' + 2 + q.count '$' := by
  rw [splitFirstAux_eq l p q h]
  simp [List.count_append, List.count_cons]
  omega

lemma expandLoop_eq_specExpand (ps : List Char) (hps : '$' ∉ ps) :
    ∀ n l, l.count '$' ≤ n → expandLoop ps n l = specExpand ps l := by
  intro n
  induction n with
  | zero =>
    intro l hl
    have hnone : splitFirstAux l = none := by
      cases hsplit : splitFirstAux l with
      | none => rfl
      | some pq =>
        have := count_split l pq.1 pq.2 hsplit
        omega
    rw [show expandLoop ps 0 l = l from rfl, specExpand_of_split_none ps l hnone]
  | succ n ih =>
    intro l hl
    have hstep : expandLoop ps (n + 1) l
        = (match splitFirstAux l with
           | none => l
           | some pq => expandLoop ps n (pq.1 ++ ps ++ pq.2)) := rfl
    cases hsplit : splitFirstAux l with
    | none =>
      rw [hstep, hsplit, specExpand_of_split_none ps l hsplit]
    | some pq =>
      rw [hstep, hsplit]
      show expandLoop ps n (pq.1 ++ ps ++ pq.2) = specExpand ps l
      have hcnt := count_split l pq.1 pq.2 hsplit
      have hps0 : ps.count '$' = 0 := List.count_eq_zero.mpr hps
      have hcnt2 : (pq.1 ++ ps ++ pq.2).count '$' ≤ n := by
        simp [List.count_append, hps0]
        omega
      rw [ih (pq.1 ++ ps ++ pq.2) hcnt2]
      have hclean := splitFirstAux_clean l pq.1 pq.2 hsplit
      rw [List.append_assoc,
        specExpand_append_clean ps pq.1 (ps ++ pq.2) hclean.1 hclean.2,
        specExpand_append_clean ps ps pq.2 (hasDD_no_dollar ps hps)
          (getLast_no_dollar ps hps),
        specExpand_of_split_some ps l pq.1 pq.2 hsplit]
      simp [List.append_assoc]

/-- Claim C7: `expandPID` replaces every occurrence of `$$` (it agrees with
the greedy single-pass replacement `specExpand` whenever the pid string
contains no dollar, which decimal pid strings never do), and it happens
before tokenization: the line `echo $$` with interpreter pid 4567 yields
the argument list `["echo", "4567"]`. -/
theorem c7_expand_pid (ps s : String) (hps : '$' ∉ ps.data) :
    expandPID ps s = String.mk (specExpand ps.data s.data)
    ∧ parseInput (expandPID (toString 4567) "echo $$") = ["echo", "4567"] := by
  constructor
  · unfold expandPID
    rw [expandLoop_eq_specExpand ps.data hps s.data.length s.data
      (List.count_le_length '$' s.data)]
  · decide

/-- Witness for C7 on pid string "7" and line `a$$b`. -/
theorem c7_witness :
    expandPID "7" "a$$b" = String.mk (specExpand "7".data "a$$b".data) :=
  (c7_expand_pid "7" "a$$b" (by decide)).1

lemma scan_exec_not_mem (ok : String → OFlags → Bool) (args : List String) :
    ∀ fd prog argv, CEv.execEv prog argv ∉ (redirScan ok args fd).evs := by
  induction args with
  | nil => intro fd prog argv h; simp [redirScan] at h
  | cons t rest ih =>
    intro fd prog argv h
    simp only [redirScan] at h
    split at h
    · split at h
      · simp at h
      · split at h
        · simp at h
          exact ih _ prog argv h
        · simp at h
    · split at h
      · split at h
        · simp at h
        · split at h
          · simp at h
            exact ih _ prog argv h
          · simp at h
      · exact ih fd prog argv h

lemma scan_open_path_mem (ok : String → OFlags → Bool) (args : List String) :
    ∀ fd fd2 q f m, CEv.openEv fd2 q f m ∈ (redirScan ok args fd).evs → q ∈ args := by
  induction args with
  | nil => intro fd fd2 q f m h; simp [redirScan] at h
  | cons t rest ih =>
    intro fd fd2 q f m h
    simp only [redirScan] at h
    split at h
    · rename_i ht
      split at h
      · simp at h
      · rename_i p rs
        split at h
        · simp at h
          rcases h with ⟨h1, h2, h3, h4⟩ | h
          · rw [← h2]
            exact List.mem_cons_of_mem t (List.mem_cons_self q rs)
          · exact List.mem_cons_of_mem t (ih _ fd2 q f m h)
        · simp at h
    · split at h
      · rename_i ht2
        split at h
        · simp at h
        · rename_i p rs
          split at h
          · simp at h
            rcases h with ⟨h1, h2, h3, h4⟩ | h
            · rw [← h2]
              exact List.mem_cons_of_mem t (List.mem_cons_self q rs)
            · exact List.mem_cons_of_mem t (ih _ fd2 q f m h)
          · simp at h
      · exact List.mem_cons_of_mem t (ih fd fd2 q f m h)

lemma scan_in_triple (ok : String → OFlags → Bool) (hok : ∀ q f, ok q f = true)
    (args : List String) :
    ∀ fd i p, args[i]? = some "<" → args[i + 1]? = some p →
      ∃ fd2, [CEv.openEv fd2 p inFlags 0, CEv.dup2Ev fd2 0, CEv.closeEv fd2].Sublist
        (redirScan ok args fd).evs := by
  induction args with
  | nil => intro fd i p hi hp; simp at hi
  | cons t rest ih =>
    intro fd i p hi hp
    cases i with
    | zero =>
      simp at hi
      subst hi
      cases rest with
      | nil => simp at hp
      | cons p0 rs =>
        simp at hp
        subst hp
        have hevs : (redirScan ok ("<" :: p0 :: rs) fd).evs
            = CEv.openEv fd p0 inFlags 0 :: CEv.dup2Ev fd 0 :: CEv.closeEv fd ::
              (redirScan ok (p0 :: rs) (fd + 1)).evs := by
          simp [redirScan, hok]
        refine ⟨fd, ?_⟩
        rw [hevs]
        exact List.sublist_append_left _ _
    | succ j =>
      simp at hi hp
      by_cases ht1 : t = "<"
      · subst ht1
        cases rest with
        | nil => simp at hi
        | cons p0 rs =>
          have hevs : (redirScan ok ("<" :: p0 :: rs) fd).evs
              = CEv.openEv fd p0 inFlags 0 :: CEv.dup2Ev fd 0 :: CEv.closeEv fd ::
                (redirScan ok (p0 :: rs) (fd + 1)).evs := by
            simp [redirScan, hok]
          obtain ⟨fd2, hsub⟩ := ih (fd + 1) j p hi hp
          refine ⟨fd2, ?_⟩
          rw [hevs]
          exact List.Sublist.cons _ (List.Sublist.cons _ (List.Sublist.cons _ hsub))
      · by_cases ht2 : t = ">"
        · subst ht2
          cases rest with
          | nil => simp at hi
          | cons p0 rs =>
            have hevs : (redirScan ok (">" :: p0 :: rs) fd).evs
                = CEv.openEv fd p0 outFlags 0o644 :: CEv.dup2Ev fd 1 :: CEv.closeEv fd ::
                  (redirScan ok (p0 :: rs) (fd + 1)).evs := by
              simp [redirScan, hok]
            obtain ⟨fd2, hsub⟩ := ih (fd + 1) j p hi hp
            refine ⟨fd2, ?_⟩
            rw [hevs]
            exact List.Sublist.cons _ (List.Sublist.cons _ (List.Sublist.cons _ hsub))
        · have hevs : (redirScan ok (t :: rest) fd).evs = (redirScan ok rest fd).evs := by
            simp [redirScan, ht1, ht2]
          obtain ⟨fd2, hsub⟩ := ih fd j p hi hp
          refine ⟨fd2, ?_⟩
          rw [hevs]
          exact hsub

lemma scan_out_triple (ok : String → OFlags → Bool) (hok : ∀ q f, ok q f = true)
    (args : List String) :
    ∀ fd i p, args[i]? = some ">" → args[i + 1]? = some p →
      ∃ fd2, [CEv.openEv fd2 p outFlags 0o644, CEv.dup2Ev fd2 1, CEv.closeEv fd2].Sublist
        (redirScan ok args fd).evs := by
  induction args with
  | nil => intro fd i p hi hp; simp at hi
  | cons t rest ih =>
    intro fd i p hi hp
    cases i with
    | zero =>
      simp at hi
      subst hi
      cases rest with
      | nil => simp at hp
      | cons p0 rs =>
        simp at hp
        subst hp
        have hevs : (redirScan ok (">" :: p0 :: rs) fd).evs
            = CEv.openEv fd p0 outFlags 0o644 :: CEv.dup2Ev fd 1 :: CEv.closeEv fd ::
              (redirScan ok (p0 :: rs) (fd + 1)).evs := by
          simp [redirScan, hok]
        refine ⟨fd, ?_⟩
        rw [hevs]
        exact List.sublist_append_left _ _
    | succ j =>
      simp at hi hp
      by_cases ht1 : t = "<"
      · subst ht1
        cases rest with
        | nil => simp at hi
        | cons p0 rs =>
          have hevs : (redirScan ok ("<" :: p0 :: rs) fd).evs
              = CEv.openEv fd p0 inFlags 0 :: CEv.dup2Ev fd 0 :: CEv.closeEv fd ::
                (redirScan ok (p0 :: rs) (fd + 1)).evs := by
            simp [redirScan, hok]
          obtain ⟨fd2, hsub⟩ := ih (fd + 1) j p hi hp
          refine ⟨fd2, ?_⟩
          rw [hevs]
          exact List.Sublist.cons _ (List.Sublist.cons _ (List.Sublist.cons _ hsub))
      · by_cases ht2 : t = ">"
        · subst ht2
          cases rest with
          | nil => simp at hi
          | cons p0 rs =>
            have hevs : (redirScan ok (">" :: p0 :: rs) fd).evs
                = CEv.openEv fd p0 outFlags 0o644 :: CEv.dup2Ev fd 1 :: CEv.closeEv fd ::
                  (redirScan ok (p0 :: rs) (fd + 1)).evs := by
              simp [redirScan, hok]
            obtain ⟨fd2, hsub⟩ := ih (fd + 1) j p hi hp
            refine ⟨fd2, ?_⟩
            rw [hevs]
            exact List.Sublist.cons _ (List.Sublist.cons _ (List.Sublist.cons _ hsub))
        · have hevs : (redirScan ok (t :: rest) fd).evs = (redirScan ok rest fd).evs := by
            simp [redirScan, ht1, ht2]
          obtain ⟨fd2, hsub⟩ := ih fd j p hi hp
          refine ⟨fd2, ?_⟩
          rw [hevs]
          exact hsub

lemma scan_first_fail (ok : String → OFlags → Bool) (op : String) (flags : OFlags)
    (hop : (op = "<" ∧ flags = inFlags) ∨ (op = ">" ∧ flags = outFlags))
    (args : List String) :
    ∀ fd i p, (∀ j t2, j < i → args[j]? = some t2 → notRedirOp t2 = true) →
      args[i]? = some op → args[i + 1]? = some p → ok p flags = false →
      CEv.perrorEv ∈ (redirScan ok args fd).evs
        ∧ CEv.exitEv 1 ∈ (redirScan ok args fd).evs
        ∧ (redirScan ok args fd).exited = true := by
  induction args with
  | nil => intro fd i p hfirst hi hp hfail; simp at hi
  | cons t rest ih =>
    intro fd i p hfirst hi hp hfail
    cases i with
    | zero =>
      simp at hi
      subst hi
      cases rest with
      | nil => simp at hp
      | cons p0 rs =>
        simp at hp
        subst hp
        rcases hop with ⟨hop1, hfl⟩ | ⟨hop1, hfl⟩
        · subst hop1
          subst hfl
          have hsc : redirScan ok ("<" :: p0 :: rs) fd
              = ⟨[CEv.openFailEv p0 inFlags, CEv.perrorEv, CEv.exitEv 1],
                  true, false, false, fd⟩ := by
            simp [redirScan, hfail]
          rw [hsc]
          exact ⟨by simp, by simp, rfl⟩
        · subst hop1
          subst hfl
          have hsc : redirScan ok (">" :: p0 :: rs) fd
              = ⟨[CEv.openFailEv p0 outFlags, CEv.perrorEv, CEv.exitEv 1],
                  true, false, false, fd⟩ := by
            simp [redirScan, hfail]
          rw [hsc]
          exact ⟨by simp, by simp, rfl⟩
    | succ j =>
      have hto := hfirst 0 t (Nat.succ_pos j) (by simp)
      have htne : t ≠ "<" ∧ t ≠ ">" := by simpa [notRedirOp] using hto
      simp at hi hp
      have hfirst2 : ∀ j2 t2, j2 < j → rest[j2]? = some t2 → notRedirOp t2 = true := by
        intro j2 t2 hj ht
        exact hfirst (j2 + 1) t2 (Nat.succ_lt_succ hj) (by simpa using ht)
      have hres := ih fd j p hfirst2 hi hp hfail
      have hevs : (redirScan ok (t :: rest) fd).evs = (redirScan ok rest fd).evs := by
        simp [redirScan, htne.1, htne.2]
      have hex : (redirScan ok (t :: rest) fd).exited
          = (redirScan ok rest fd).exited := by
        simp [redirScan, htne.1, htne.2]
      rw [hevs, hex]
      exact hres

lemma scan_sawIn_false (ok : String → OFlags → Bool) (args : List String)
    (hmem : "<" ∉ args) : ∀ fd, (redirScan ok args fd).sawIn = false := by
  induction args with
  | nil => intro fd; rfl
  | cons t rest ih =>
    intro fd
    have ht : t ≠ "<" := fun h => hmem (h ▸ List.mem_cons_self t rest)
    have hrest : "<" ∉ rest := fun h => hmem (List.mem_cons_of_mem t h)
    by_cases ht2 : t = ">"
    · subst ht2
      cases rest with
      | nil => simp [redirScan, ht]
      | cons p0 rs =>
        by_cases hopen : ok p0 outFlags = true
        · have hs : (redirScan ok (">" :: p0 :: rs) fd).sawIn
              = (redirScan ok (p0 :: rs) (fd + 1)).sawIn := by
            simp [redirScan, hopen]
          rw [hs]
          exact ih hrest (fd + 1)
        · simp [redirScan, hopen]
    · have hs : (redirScan ok (t :: rest) fd).sawIn
          = (redirScan ok rest fd).sawIn := by
        simp [redirScan, ht, ht2]
      rw [hs]
      exact ih hrest fd

lemma scan_sawOut_false (ok : String → OFlags → Bool) (args : List String)
    (hmem : ">" ∉ args) : ∀ fd, (redirScan ok args fd).sawOut = false := by
  induction args with
  | nil => intro fd; rfl
  | cons t rest ih =>
    intro fd
    have ht : t ≠ ">" := fun h => hmem (h ▸ List.mem_cons_self t rest)
    have hrest : ">" ∉ rest := fun h => hmem (List.mem_cons_of_mem t h)
    by_cases ht2 : t = "<"
    · subst ht2
      cases rest with
      | nil => simp [redirScan]
      | cons p0 rs =>
        by_cases hopen : ok p0 inFlags = true
        · have hs : (redirScan ok ("<" :: p0 :: rs) fd).sawOut
              = (redirScan ok (p0 :: rs) (fd + 1)).sawOut := by
            simp [redirScan, hopen]
          rw [hs]
          exact ih hrest (fd + 1)
        · simp [redirScan, hopen]
    · have hs : (redirScan ok (t :: rest) fd).sawOut
          = (redirScan ok rest fd).sawOut := by
        simp [redirScan, ht, ht2]
      rw [hs]
      exact ih hrest fd

lemma sig_exec_not_mem (isBg : Bool) (prog : String) (argv : List String) :
    CEv.execEv prog argv ∉ sigEvents isBg := by
  cases isBg <;> simp [sigEvents]

lemma sig_open_not_mem (isBg : Bool) (fd : Nat) (q : String) (f : OFlags) (m : Nat) :
    CEv.openEv fd q f m ∉ sigEvents isBg := by
  cases isBg <;> simp [sigEvents]

lemma execStep_exec_argv (execOk : Bool) (argv0 : List String) :
    ∀ prog argv, CEv.execEv prog argv ∈ execStep execOk argv0 → argv = argv0 := by
  intro prog argv h
  cases argv0 with
  | nil => simp [execStep] at h
  | cons p rs =>
    simp only [execStep] at h
    rcases List.mem_cons.mp h with h | h
    · injection h with h1 h2
    · exfalso
      split at h <;> simp at h

lemma execStep_open_not_mem (execOk : Bool) (argv0 : List String) (fd : Nat)
    (q : String) (f : OFlags) (m : Nat) :
    CEv.openEv fd q f m ∉ execStep execOk argv0 := by
  cases argv0 with
  | nil => simp [execStep]
  | cons p rs =>
    simp only [execStep]
    intro h
    rcases List.mem_cons.mp h with h | h
    · exact CEv.noConfusion h
    · split at h <;> simp at h

lemma bgDefaultOut_exec_not_mem (ok : String → OFlags → Bool) (so : Bool) (fd : Nat)
    (prog : String) (argv : List String) :
    CEv.execEv prog argv ∉ (bgDefaultOut ok so fd).1 := by
  unfold bgDefaultOut
  split
  · simp
  · split <;> simp

lemma bgDefaults_exec_not_mem (ok : String → OFlags → Bool) (si so : Bool) (fd : Nat)
    (prog : String) (argv : List String) :
    CEv.execEv prog argv ∉ (bgDefaults ok si so fd).1 := by
  simp only [bgDefaults]
  split
  · exact bgDefaultOut_exec_not_mem ok so fd prog argv
  · split
    · intro h
      simp at h
      exact bgDefaultOut_exec_not_mem ok so (fd + 1) prog argv h
    · simp

lemma childRun_exec_argv (ok : String → OFlags → Bool) (execOk isBg : Bool)
    (args : List String) :
    ∀ prog argv, CEv.execEv prog argv ∈ childRun ok execOk isBg args →
      argv = args.takeWhile notRedirOp := by
  intro prog argv h
  simp only [childRun] at h
  split at h
  · exfalso
    rcases List.mem_append.mp h with h | h
    · exact sig_exec_not_mem isBg prog argv h
    · exact scan_exec_not_mem ok args 3 prog argv h
  · split at h <;> split at h <;>
      [skip; skip; skip; skip] <;>
      first
        | (exfalso
           rcases List.mem_append.mp h with h | h
           · rcases List.mem_append.mp h with h | h
             · exact sig_exec_not_mem isBg prog argv h
             · exact scan_exec_not_mem ok args 3 prog argv h
           · first
               | exact bgDefaults_exec_not_mem ok _ _ _ prog argv h
               | simp at h)
        | (rcases List.mem_append.mp h with h | h
           · exfalso
             rcases List.mem_append.mp h with h | h
             · rcases List.mem_append.mp h with h | h
               · exact sig_exec_not_mem isBg prog argv h
               · exact scan_exec_not_mem ok args 3 prog argv h
             · first
                 | exact bgDefaults_exec_not_mem ok _ _ _ prog argv h
                 | simp at h
           · exact execStep_exec_argv execOk _ prog argv h)

lemma takeWhile_length_le (P : String → Bool) (args : List String) :
    ∀ i t, args[i]? = some t → P t = false → (args.takeWhile P).length ≤ i := by
  induction args with
  | nil => intro i t h hP; simp at h
  | cons a rest ih =>
    intro i t h hP
    cases i with
    | zero =>
      simp at h
      subst h
      simp [List.takeWhile_cons, hP]
    | succ j =>
      simp at h
      by_cases hPa : P a = true
      · have hrec := ih j t h hP
        simp [List.takeWhile_cons, hPa]
        omega
      · have hPa2 : P a = false := by
          cases hx : P a
          · rfl
          · exact absurd hx hPa
        simp [List.takeWhile_cons, hPa2]

lemma childRun_exited_eq (ok : String → OFlags → Bool) (execOk isBg : Bool)
    (args : List String) (hex : (redirScan ok args 3).exited = true) :
    childRun ok execOk isBg args = sigEvents isBg ++ (redirScan ok args 3).evs := by
  simp only [childRun]
  rw [if_pos hex]

lemma scan_sub_childRun (ok : String → OFlags → Bool) (execOk isBg : Bool)
    (args : List String) (l : List CEv)
    (h : l.Sublist (redirScan ok args 3).evs) :
    l.Sublist (childRun ok execOk isBg args) := by
  simp only [childRun]
  split
  · exact h.trans (List.sublist_append_right _ _)
  · split <;> split <;>
      first
        | exact h.trans ((List.sublist_append_right (sigEvents isBg) _).trans
            (List.sublist_append_left _ _))
        | exact h.trans (((List.sublist_append_right (sigEvents isBg) _).trans
            (List.sublist_append_left _ _)).trans (List.sublist_append_left _ _))

lemma bgdef_sub_childRun (ok : String → OFlags → Bool) (execOk : Bool)
    (args : List String) (l : List CEv)
    (hne : (redirScan ok args 3).exited = false)
    (h : l.Sublist (bgDefaults ok (redirScan ok args 3).sawIn
      (redirScan ok args 3).sawOut (redirScan ok args 3).nextFd).1) :
    l.Sublist (childRun ok execOk true args) := by
  simp only [childRun]
  rw [if_neg (by simp [hne])]
  split <;> split <;>
    first
      | exact h.trans (List.sublist_append_right _ _)
      | exact h.trans ((List.sublist_append_right _ _).trans
          (List.sublist_append_left _ _))
      | simp_all

/-- Claim C3: for `<` (resp. `>`) followed by a path token, the child opens
the path read-only (resp. write-only/create/truncate, mode 0o644),
duplicates the descriptor onto standard input (resp. output), closes the
original — the three events appear in order in the child's trace — and
the argument vector passed to `execvp` is the prefix of the invocation
before the first redirection operator, so positions `i` (the operator)
and `i + 1` (its path) never reach it; if the `open` fails (the operator
being the first one reached), the child reports via `perror` and exits
with the non-zero code 1, never reaching `execvp`. -/
theorem c3_redirection (ok : String → OFlags → Bool) (execOk isBg : Bool)
    (args : List String) (i : Nat) (p : String) :
    ((∀ q f, ok q f = true) → args[i]? = some "<" → args[i + 1]? = some p →
      ∃ fd, [CEv.openEv fd p inFlags 0, CEv.dup2Ev fd 0, CEv.closeEv fd].Sublist
        (childRun ok execOk isBg args))
    ∧ ((∀ q f, ok q f = true) → args[i]? = some ">" → args[i + 1]? = some p →
      ∃ fd, [CEv.openEv fd p outFlags 0o644, CEv.dup2Ev fd 1, CEv.closeEv fd].Sublist
        (childRun ok execOk isBg args))
    ∧ (∀ prog argv, CEv.execEv prog argv ∈ childRun ok execOk isBg args →
        argv = args.takeWhile notRedirOp
          ∧ ((args[i]? = some "<" ∨ args[i]? = some ">") → argv.length ≤ i))
    ∧ (∀ op flags, (op = "<" ∧ flags = inFlags) ∨ (op = ">" ∧ flags = outFlags) →
        (∀ j t2, j < i → args[j]? = some t2 → notRedirOp t2 = true) →
        args[i]? = some op → args[i + 1]? = some p → ok p flags = false →
        CEv.perrorEv ∈ childRun ok execOk isBg args
          ∧ CEv.exitEv 1 ∈ childRun ok execOk isBg args
          ∧ ∀ prog argv, CEv.execEv prog argv ∉ childRun ok execOk isBg args) := by
  refine ⟨?_, ?_, ?_, ?_⟩
  · intro hok hi hp
    obtain ⟨fd, hsub⟩ := scan_in_triple ok hok args 3 i p hi hp
    exact ⟨fd, scan_sub_childRun ok execOk isBg args _ hsub⟩
  · intro hok hi hp
    obtain ⟨fd, hsub⟩ := scan_out_triple ok hok args 3 i p hi hp
    exact ⟨fd, scan_sub_childRun ok execOk isBg args _ hsub⟩
  · intro prog argv h
    have hargv := childRun_exec_argv ok execOk isBg args prog argv h
    refine ⟨hargv, ?_⟩
    intro hop
    rcases hop with hi | hi
    · rw [hargv]
      exact takeWhile_length_le notRedirOp args i "<" hi (by decide)
    · rw [hargv]
      exact takeWhile_length_le notRedirOp args i ">" hi (by decide)
  · intro op flags hopf hfirst hi hp hfail
    have hres := scan_first_fail ok op flags hopf args 3 i p hfirst hi hp hfail
    have hchild := childRun_exited_eq ok execOk isBg args hres.2.2
    rw [hchild]
    refine ⟨List.mem_append_right _ hres.1, List.mem_append_right _ hres.2.1, ?_⟩
    intro prog argv habs
    rcases List.mem_append.mp habs with habs | habs
    · exact sig_exec_not_mem isBg prog argv habs
    · exact scan_exec_not_mem ok args 3 prog argv habs

/-- Witness for C3: `cat < f` with every open succeeding. -/
theorem c3_witness :
    ∃ fd, [CEv.openEv fd "f" inFlags 0, CEv.dup2Ev fd 0, CEv.closeEv fd].Sublist
      (childRun allOkO true false ["cat", "<", "f"]) :=
  (c3_redirection allOkO true false ["cat", "<", "f"] 1 "f").1 (fun q f => rfl)
    (by decide) (by decide)

/-- Claim C4: for a background child whose scan exited successfully, when
no explicit `<` appears the trace opens `/dev/null` read-only, duplicates
it onto standard input and closes it; when no explicit `>` appears it
opens `/dev/null` write-only, duplicates onto standard output and closes;
a foreground child opens only paths that literally occur in the
invocation — no implicit redirection. -/
theorem c4_background_null_defaults (ok : String → OFlags → Bool) (execOk : Bool)
    (args : List String)
    (hok : ∀ f, ok "/dev/null" f = true)
    (hne : (redirScan ok args 3).exited = false) :
    (¬ ("<" ∈ args) → ∃ fd, [CEv.openEv fd "/dev/null" inFlags 0, CEv.dup2Ev fd 0,
        CEv.closeEv fd].Sublist (childRun ok execOk true args))
    ∧ (¬ (">" ∈ args) → ∃ fd, [CEv.openEv fd "/dev/null" wrFlags 0, CEv.dup2Ev fd 1,
        CEv.closeEv fd].Sublist (childRun ok execOk true args))
    ∧ (∀ fd q f m, CEv.openEv fd q f m ∈ childRun ok execOk false args → q ∈ args) := by
  refine ⟨?_, ?_, ?_⟩
  · intro hmem
    have hsi := scan_sawIn_false ok args hmem 3
    refine ⟨(redirScan ok args 3).nextFd, ?_⟩
    apply bgdef_sub_childRun ok execOk args _ hne
    rw [hsi]
    have hd1 : (bgDefaults ok false (redirScan ok args 3).sawOut
        (redirScan ok args 3).nextFd).1
        = CEv.openEv (redirScan ok args 3).nextFd "/dev/null" inFlags 0 ::
          CEv.dup2Ev (redirScan ok args 3).nextFd 0 ::
          CEv.closeEv (redirScan ok args 3).nextFd ::
          (bgDefaultOut ok (redirScan ok args 3).sawOut
            ((redirScan ok args 3).nextFd + 1)).1 := by
      simp [bgDefaults, hok]
    rw [hd1]
    exact List.sublist_append_left _ _
  · intro hmem
    have hso := scan_sawOut_false ok args hmem 3
    by_cases hsi2 : (redirScan ok args 3).sawIn = true
    · refine ⟨(redirScan ok args 3).nextFd, ?_⟩
      apply bgdef_sub_childRun ok execOk args _ hne
      rw [hsi2, hso]
      have hd1 : (bgDefaults ok true false (redirScan ok args 3).nextFd).1
          = [CEv.openEv (redirScan ok args 3).nextFd "/dev/null" wrFlags 0,
             CEv.dup2Ev (redirScan ok args 3).nextFd 1,
             CEv.closeEv (redirScan ok args 3).nextFd] := by
        simp [bgDefaults, bgDefaultOut, hok]
      rw [hd1]
    · have hsi3 : (redirScan ok args 3).sawIn = false := by
        cases hx : (redirScan ok args 3).sawIn
        · rfl
        · exact absurd hx hsi2
      refine ⟨(redirScan ok args 3).nextFd + 1, ?_⟩
      apply bgdef_sub_childRun ok execOk args _ hne
      rw [hsi3, hso]
      have hd1 : (bgDefaults ok false false (redirScan ok args 3).nextFd).1
          = CEv.openEv (redirScan ok args 3).nextFd "/dev/null" inFlags 0 ::
            CEv.dup2Ev (redirScan ok args 3).nextFd 0 ::
            CEv.closeEv (redirScan ok args 3).nextFd ::
            [CEv.openEv ((redirScan ok args 3).nextFd + 1) "/dev/null" wrFlags 0,
             CEv.dup2Ev ((redirScan ok args 3).nextFd + 1) 1,
             CEv.closeEv ((redirScan ok args 3).nextFd + 1)] := by
        simp [bgDefaults, bgDefaultOut, hok]
      rw [hd1]
      exact List.Sublist.cons _ (List.Sublist.cons _ (List.Sublist.cons _
        (List.Sublist.refl _)))
  · intro fd q f m h
    simp only [childRun] at h
    split at h
    · rcases List.mem_append.mp h with h | h
      · exact absurd h (sig_open_not_mem false fd q f m)
      · exact scan_open_path_mem ok args 3 fd q f m h
    · split at h <;> (try split at h) <;>
        first
          | (rcases List.mem_append.mp h with h | h
             · rcases List.mem_append.mp h with h | h
               · exact absurd h (sig_open_not_mem false fd q f m)
               · exact scan_open_path_mem ok args 3 fd q f m h
             · simp at h)
          | (rcases List.mem_append.mp h with h | h
             · rcases List.mem_append.mp h with h | h
               · rcases List.mem_append.mp h with h | h
                 · exact absurd h (sig_open_not_mem false fd q f m)
                 · exact scan_open_path_mem ok args 3 fd q f m h
               · simp at h
             · exact absurd h (execStep_open_not_mem execOk _ fd q f m))
          | simp_all

/-- Witness for C4: `sleep 5 &` with no explicit redirection gets its
input bound to `/dev/null`. -/
theorem c4_witness :
    ∃ fd, [CEv.openEv fd "/dev/null" inFlags 0, CEv.dup2Ev fd 0,
      CEv.closeEv fd].Sublist (childRun allOkO true true ["sleep", "5"]) :=
  (c4_background_null_defaults allOkO true ["sleep", "5"] (fun f => rfl) rfl).1
    (by decide)
